import Mathlib

/-!
Shallow embedding of the round-lifecycle engine and bet intake of
`server.js` (color-trading game server).

Conventions of the embedding:
* Instants are epoch milliseconds as `Int`; JS `Math.floor(a/b)` for a
  positive divisor `b` is `Int` division `/` (`Int.ediv`).
* The four track configurations of the `MODES` object are the inductive
  `Mode`; `modeSeconds` is the value of the object at each key.
* JSON request field values are `JsVal` (string or number); an absent
  field is `Option.none`.  JS truthiness on these values: `""` and `0`
  are falsy.
* The MongoDB store of rounds for one track is a `List Round`, newest
  round first; `Round.id` plays the role of `_id` (document identity,
  used by `save()`), and is chosen fresh at insertion.
* `crypto.randomInt(0, 10)` is modelled by drawing `e % 10` from an
  arbitrary entropy value `e : Nat`; its outputs are exactly `0..9`.
* The local-calendar decomposition performed by the JS `Date` library is
  abstracted by a `Calendar`: `off` is the local-timezone offset in
  milliseconds, and `dateCode d` stands for the `${yyyy}${mm}${dd}`
  string which `new Date` produces for local day index `d`.  With this,
  `setHours(0,0,0,0)` (local midnight) of instant `t` is
  `(t + off) / 86400000 * 86400000 - off`, so the source's
  `diff = date.getTime() - startOfDay` is `(t + off) % 86400000`.
-/

namespace ColorTrading

/-- JSON scalar values a request field can carry (string or number). -/
inductive JsVal where
  | str (s : String)
  | num (n : Int)
deriving DecidableEq, Repr

/-- JS truthiness test restricted to `JsVal`: `""` and `0` are falsy. -/
def JsVal.falsy : JsVal → Bool
  | .str s => s == ""
  | .num n => n == 0

/-- JS `String(v)` conversion for a `JsVal`. -/
def JsVal.toStr : JsVal → String
  | .str s => s
  | .num n => Int.repr n

/-- Keys of the `MODES` object:
`{ '30s': 30, '1min': 60, '3min': 180, '5min': 300 }`. -/
inductive Mode where
  | m30s | m1min | m3min | m5min
deriving DecidableEq, Repr

/-- Key string of a mode in the `MODES` object. -/
def modeKey : Mode → String
  | .m30s => "30s"
  | .m1min => "1min"
  | .m3min => "3min"
  | .m5min => "5min"

/-- Value of the `MODES` object at a mode's key: the duration in seconds. -/
def modeSeconds : Mode → Nat
  | .m30s => 30
  | .m1min => 60
  | .m3min => 180
  | .m5min => 300

/-- Lookup `MODES[mode]` for a request-supplied value: `some m` iff the
value is the key string of mode `m` (the `!MODES[mode]` check fails). -/
def parseMode : JsVal → Option Mode
  | .str "30s" => some .m30s
  | .str "1min" => some .m1min
  | .str "3min" => some .m3min
  | .str "5min" => some .m5min
  | _ => none

/-- Track duration in milliseconds (`modeMs = duration * 1000`). -/
def modeMs (m : Mode) : Int := (modeSeconds m : Int) * 1000

/-- Local-calendar decomposition of the JS `Date` library (external to
the repository): `off` is the local timezone offset in milliseconds and
`dateCode d` is the `${yyyy}${mm}${dd}` string of local day index `d`. -/
structure Calendar where
  off : Int
  dateCode : Int → String

/-- JS `s.padStart(4, '0')`. -/
def padStart4 (s : String) : String :=
  if 4 ≤ s.length then s else ⟨List.replicate (4 - s.length) '0'⟩ ++ s

/-- Local day index of instant `t` (days since epoch, in local time). -/
def localDay (cal : Calendar) (t : Int) : Int := (t + cal.off) / 86400000

/-- Milliseconds elapsed since the local midnight of instant `t`
(the source's `diff = date.getTime() - startOfDay`). -/
def msOfDay (cal : Calendar) (t : Int) : Nat := ((t + cal.off) % 86400000).toNat

/-- `generatePeriod(mode, time)`: `YYYYMMDD` + duration seconds +
`String(Math.floor(diff / 1000 / modeSeconds) + 1).padStart(4, '0')`. -/
def generatePeriod (cal : Calendar) (m : Mode) (time : Int) : String :=
  let diff := msOfDay cal time
  let periodNum := diff / 1000 / modeSeconds m + 1
  cal.dateCode (localDay cal time) ++ Nat.repr (modeSeconds m) ++
    padStart4 (Nat.repr periodNum)

/-- Status enum of the `Round` schema. -/
inductive Status where
  | open_ | locked | settled
deriving DecidableEq, Repr

/-- Result subdocument of a settled round. -/
structure RoundResult where
  number : Nat
  color : String
  size : String
deriving DecidableEq, Repr

/-- Round document.  `id` models the Mongo `_id` (used by `save()`). -/
structure Round where
  id : Nat
  period : String
  startTime : Int
  endTime : Int
  status : Status
  result : Option RoundResult
deriving DecidableEq, Repr

/-- Slot computation of `createNewRound`: aligned candidate
`startTime = floor(now / modeMs) * modeMs`, bumped one slot when already
fully elapsed, and `endTime = nextStart + modeMs`.  Returns
`(nextStart, endTime)`. -/
def alignSlot (m : Mode) (now : Int) : Int × Int :=
  let startTime := now / modeMs m * modeMs m
  let nextStart := if startTime + modeMs m ≤ now then startTime + modeMs m else startTime
  (nextStart, nextStart + modeMs m)

/-- `Round.findOne({ mode }).sort({ startTime: -1 })`: a round of maximal
`startTime` (preferring the earlier-listed one on ties). -/
def latestRound : List Round → Option Round
  | [] => none
  | r :: rs =>
    match latestRound rs with
    | none => some r
    | some b => if b.startTime > r.startTime then some b else some r

/-- `createNewRound(mode)` at instant `now` against store `s`: compute the
aligned slot and its period; if a round with that period already exists
(settled or not) the function returns without writing, otherwise a fresh
`open` round for the slot is inserted. -/
def createNewRound (cal : Calendar) (m : Mode) (now : Int) (s : List Round) :
    List Round :=
  match s.find? (fun r => r.period == generatePeriod cal m (alignSlot m now).1) with
  | some _ => s
  | none =>
    { id := s.length, period := generatePeriod cal m (alignSlot m now).1,
      startTime := (alignSlot m now).1, endTime := (alignSlot m now).2,
      status := .open_, result := none } :: s

/-- Outcome drawn by `settleRound` from entropy `e`:
`number = randomInt(0, 10)` with the source's color and size derivation. -/
def drawResult (e : Nat) : RoundResult :=
  let number := e % 10
  let color :=
    if number = 0 then "red_violet"
    else if number = 5 then "green_violet"
    else if [1, 3, 7, 9].contains number then "green"
    else "red"
  let size := if number ≥ 5 then "big" else "small"
  { number := number, color := color, size := size }

/-- `settleRound(round)`: write `result` and `status = 'settled'` to the
document with `round`'s identity, then immediately `createNewRound`. -/
def settleRound (cal : Calendar) (m : Mode) (now : Int) (e : Nat)
    (s : List Round) (r : Round) : List Round :=
  let r' := { r with status := .settled, result := some (drawResult e) }
  let s' := s.map fun x => if x.id = r.id then r' else x
  createNewRound cal m now s'

/-- Body of the `setInterval` game loop for one mode at instant `now`:
fetch the latest round; create one if none exists or it is settled; lock
it when `timeLeft = (endTime - now)/1000 ≤ 5` seconds and it is open
(the millisecond comparison `endTime - now ≤ 5000` is exact); otherwise
settle it when `timeLeft ≤ 0` and it is not settled. -/
def tick (cal : Calendar) (m : Mode) (now : Int) (e : Nat) (s : List Round) :
    List Round :=
  match latestRound s with
  | none => createNewRound cal m now s
  | some round =>
    if round.status = .settled then createNewRound cal m now s
    else if round.endTime - now ≤ 5000 ∧ round.status = .open_ then
      s.map fun x => if x.id = round.id then { round with status := .locked } else x
    else if round.endTime - now ≤ 0 ∧ ¬ round.status = .settled then
      settleRound cal m now e s round
    else s

/-- States of one track's store reachable in a single process run: the
`startGameLoop` startup invocation of `createNewRound` on the initial
(empty) store, followed by loop ticks at nondecreasing instants.  The
index is the instant of the last operation. -/
inductive EngineReach (cal : Calendar) (m : Mode) : Int → List Round → Prop where
  | start (t : Int) (ht : 0 ≤ t) : EngineReach cal m t (createNewRound cal m t [])
  | step (t t' : Int) (e : Nat) (s : List Round) (h : EngineReach cal m t s)
      (hle : t ≤ t') : EngineReach cal m t' (tick cal m t' e s)

/-- One engine operation on a track's store: a `createNewRound` invocation
(startup path) or one game-loop tick (which itself performs the
`settleRound` / `createNewRound` calls of the source). -/
inductive EngineOp where
  | createOp (t : Int)
  | tickOp (t : Int) (e : Nat)
deriving DecidableEq, Repr

/-- Apply one engine operation. -/
def runOp (cal : Calendar) (m : Mode) (s : List Round) : EngineOp → List Round
  | .createOp t => createNewRound cal m t s
  | .tickOp t e => tick cal m t e s

/-- Apply a sequence of engine operations, oldest first. -/
def runOps (cal : Calendar) (m : Mode) : List EngineOp → List Round → List Round
  | [], s => s
  | op :: ops, s => runOps cal m ops (runOp cal m s op)

/-- Number of rounds of a store that are `open` or `locked`. -/
def activeCount (s : List Round) : Nat :=
  (s.filter fun r => r.status = Status.open_ ∨ r.status = Status.locked).length

/-- Body of a `POST /api/game/bet` request: the five destructured fields.
`amount` and `multiplier` are numeric JSON fields, modelled as integers;
an absent field is `none`. -/
structure BetReq where
  mode : Option JsVal
  betType : Option JsVal
  betValue : Option JsVal
  amount : Option Int
  multiplier : Option Int
deriving DecidableEq, Repr

/-- Rejections of the bet endpoint, one per `res.status(400)` exit. -/
inductive BetError where
  | missingFields
  | invalidMode
  | minimumBet
  | invalidBetValue
  | roundNotOpen
  | bettingClosed
deriving DecidableEq, Repr

/-- Classification of the spec's error taxonomy: the four pre-round checks
are `ValidationError`s; `roundNotOpen` and `bettingClosed` are the
`StateConflict` class. -/
def BetError.isValidation : BetError → Bool
  | .missingFields | .invalidMode | .minimumBet | .invalidBetValue => true
  | .roundNotOpen | .bettingClosed => false

/-- Bet document created by the endpoint (string fields as cast by the
schema, `totalAmount = amount * multiplier`). -/
structure Bet where
  roundId : Nat
  period : String
  mode : String
  betType : String
  betValue : String
  amount : Int
  multiplier : Int
  totalAmount : Int
deriving DecidableEq, Repr

/-- The JS guard `!x` on an optional request field value. -/
def fieldFalsy : Option JsVal → Bool
  | none => true
  | some v => v.falsy

/-- The JS guard `!x` on an optional numeric request field. -/
def numFalsy : Option Int → Bool
  | none => true
  | some n => n == 0

/-- `/^[0-9]$/.test(s)`: `s` is a single decimal-digit character. -/
def digitTest (s : String) : Bool :=
  match s.data with
  | [c] => '0' ≤ c && c ≤ '9'
  | _ => false

/-- The endpoint's `isValid` constant: strict per-type validation of the
bet value (`validColor = ['green', 'red', 'violet']`). -/
def isValidBetValue (btv bvv : JsVal) : Bool :=
  (btv == JsVal.str "color" && ["green", "red", "violet"].contains bvv.toStr)
    || (btv == JsVal.str "number" && digitTest bvv.toStr)
    || (btv == JsVal.str "size" && ["big", "small"].contains bvv.toStr)

/-- The missing-fields guard of the bet endpoint
(`!mode || !betType || !betValue || !amount || !multiplier`). -/
def missingFieldsGuard (req : BetReq) : Bool :=
  fieldFalsy req.mode || fieldFalsy req.betType || fieldFalsy req.betValue
    || numFalsy req.amount || numFalsy req.multiplier

/-- Handler of `POST /api/game/bet` at instant `now` against the per-mode
round store `store`: the missing-fields guard, mode lookup, minimum
amount, strict per-type bet-value validation, then the open-round and
`timeLeft > 5` window checks before the `Bet` document is built. -/
def placeBet (req : BetReq) (store : Mode → List Round) (now : Int) :
    Except BetError Bet :=
  if missingFieldsGuard req then
    .error .missingFields
  else
    match req.mode, req.betType, req.betValue, req.amount, req.multiplier with
    | some mv, some btv, some bvv, some amount, some multiplier =>
      match parseMode mv with
      | none => .error .invalidMode
      | some mode =>
        if amount < 10 then .error .minimumBet
        else
          if !isValidBetValue btv bvv then .error .invalidBetValue
          else
            match latestRound (store mode) with
            | none => .error .roundNotOpen
            | some round =>
              if ¬ round.status = .open_ then .error .roundNotOpen
              else if round.endTime - now ≤ 5000 then .error .bettingClosed
              else
                .ok { roundId := round.id, period := round.period,
                      mode := mv.toStr, betType := btv.toStr,
                      betValue := bvv.toStr, amount := amount,
                      multiplier := multiplier,
                      totalAmount := amount * multiplier }
    | _, _, _, _, _ => .error .missingFields

/-- Effect of the endpoint on the bet collection: `bet.save()` appends the
new document exactly when the request was accepted. -/
def applyBet (bets : List Bet) (r : Except BetError Bet) : List Bet :=
  match r with
  | .ok b => bets ++ [b]
  | .error _ => bets

/-- Numeric value of a list of decimal digit characters, most significant
first (used to invert decimal rendering). -/
def parseDigits (l : List Char) : Nat :=
  l.foldl (fun a c => 10 * a + (c.toNat - 48)) 0

/-- Numeric value of a string of decimal digits. -/
def parseNat (s : String) : Nat := parseDigits s.data

/-- Distinct aligned slot starts of one track always yield distinct period
identifiers (the collision-freedom contract of the period codec, relative
to a calendar). -/
def PeriodInjOn (cal : Calendar) (m : Mode) : Prop :=
  ∀ s₁ s₂ : Int, 0 ≤ s₁ → 0 ≤ s₂ → s₁ % modeMs m = 0 → s₂ % modeMs m = 0 →
    s₁ ≠ s₂ → generatePeriod cal m s₁ ≠ generatePeriod cal m s₂

/-- Concrete calendar used to instantiate theorems: zero timezone offset
and an injective day encoding (day index followed by a separator). -/
def cal0 : Calendar :=
  { off := 0, dateCode := fun d => Nat.repr d.toNat ++ "x" }

/-- Request whose amount is present but below the configured minimum 10. -/
def amountBelowMin (req : BetReq) : Prop :=
  match req.amount with
  | some a => a < 10
  | none => False

/-- Request whose bet value lies outside its bet type's domain: color
values outside `{green, red, violet}`, number values that are not a
single decimal digit (`0..9`), size values outside `{big, small}`. -/
def betValueOutOfDomain (req : BetReq) : Prop :=
  (req.betType = some (.str "color") ∧
    ∃ v, req.betValue = some v ∧ ["green", "red", "violet"].contains v.toStr = false)
  ∨ (req.betType = some (.str "number") ∧
    ∃ v, req.betValue = some v ∧ digitTest v.toStr = false)
  ∨ (req.betType = some (.str "size") ∧
    ∃ v, req.betValue = some v ∧ ["big", "small"].contains v.toStr = false)

/-- Engine invariant for one track's store, at clock lower bound `t`
(the instant of the last engine operation): the clock is nonnegative;
every round is an aligned slot round, period-coherent, no later than the
clock; rounds are listed newest first with strictly decreasing start
times; every round except the newest is settled; ids are below the list
length and pairwise distinct (fresh-id discipline of insertion). -/
def Inv (cal : Calendar) (m : Mode) (t : Int) (s : List Round) : Prop :=
  0 ≤ t
  ∧ (∀ r ∈ s, 0 ≤ r.startTime ∧ r.startTime % modeMs m = 0
      ∧ r.endTime = r.startTime + modeMs m
      ∧ r.period = generatePeriod cal m r.startTime ∧ r.startTime ≤ t)
  ∧ List.Chain' (fun a b => b.startTime < a.startTime) s
  ∧ (∀ r ∈ s.tail, r.status = Status.settled)
  ∧ (∀ r ∈ s, r.id < s.length)
  ∧ List.Pairwise (fun a b => a.id ≠ b.id) s

/-- Identity discipline of a store: ids below the length and pairwise
distinct (all insertions use a fresh id). -/
def IdOk (s : List Round) : Prop :=
  (∀ r ∈ s, r.id < s.length) ∧ List.Pairwise (fun a b => a.id ≠ b.id) s

/-- Rank of a round status along the lifecycle
`open (0) → locked (1) → settled (2)`. -/
def statusRank : Status → Nat
  | .open_ => 0
  | .locked => 1
  | .settled => 2

/-- Concrete open round used to instantiate the bet-endpoint theorems. -/
def round0 : Round :=
  { id := 0, period := "p", startTime := 0, endTime := 30000,
    status := .open_, result := none }

/-- Concrete one-round store used to instantiate the bet-endpoint
theorems. -/
def store0 : Mode → List Round := fun _ => [round0]

/-!
Decimal-rendering facts: `Nat.repr` (used by the period codec through
string interpolation and `padStart`) is inverted by `parseDigits`, and
left-padding with `'0'` does not change the parsed value.  These drive
the collision-freedom results about `generatePeriod`.
-/

theorem toDigitsCore_acc (fuel : Nat) : ∀ (n : Nat) (ds : List Char),
    Nat.toDigitsCore 10 fuel n ds = Nat.toDigitsCore 10 fuel n [] ++ ds := by
  induction fuel with
  | zero => intro n ds; simp [Nat.toDigitsCore]
  | succ f ih =>
    intro n ds
    simp only [Nat.toDigitsCore]
    by_cases h : n / 10 = 0
    · simp [h]
    · simp only [if_neg h]
      rw [ih (n / 10) (Nat.digitChar (n % 10) :: ds),
          ih (n / 10) [Nat.digitChar (n % 10)]]
      simp

theorem toDigitsCore_fuel : ∀ (n f₁ f₂ : Nat), n < f₁ → n < f₂ →
    Nat.toDigitsCore 10 f₁ n [] = Nat.toDigitsCore 10 f₂ n [] := by
  intro n
  induction n using Nat.strong_induction_on with
  | _ n ih =>
    intro f₁ f₂ h₁ h₂
    match f₁, f₂ with
    | g₁ + 1, g₂ + 1 =>
      simp only [Nat.toDigitsCore]
      by_cases h : n / 10 = 0
      · simp [h]
      · simp only [if_neg h]
        rw [toDigitsCore_acc g₁, toDigitsCore_acc g₂]
        have hn10 : n / 10 < n := Nat.div_lt_self (Nat.pos_of_ne_zero (by omega)) (by omega)
        rw [ih (n / 10) hn10 g₁ g₂ (by omega) (by omega)]

theorem toDigits_small {n : Nat} (h : n < 10) :
    Nat.toDigits 10 n = [Nat.digitChar n] := by
  simp only [Nat.toDigits, Nat.toDigitsCore]
  rw [Nat.div_eq_of_lt h, if_pos rfl, Nat.mod_eq_of_lt h]

theorem toDigits_step {n : Nat} (h : 10 ≤ n) :
    Nat.toDigits 10 n = Nat.toDigits 10 (n / 10) ++ [Nat.digitChar (n % 10)] := by
  have hne : ¬ n / 10 = 0 := by omega
  simp only [Nat.toDigits, Nat.toDigitsCore]
  rw [if_neg hne, toDigitsCore_acc]
  congr 1
  exact toDigitsCore_fuel (n / 10) n (n / 10 + 1)
    (lt_of_lt_of_le (Nat.div_lt_self (by omega) (by omega)) (by omega)) (by omega)

theorem digitChar_val {d : Nat} (h : d < 10) : (Nat.digitChar d).toNat - 48 = d := by
  interval_cases d <;> rfl

theorem parseDigits_append (l : List Char) (c : Char) :
    parseDigits (l ++ [c]) = 10 * parseDigits l + (c.toNat - 48) := by
  unfold parseDigits
  rw [List.foldl_append]; rfl

theorem parse_toDigits : ∀ n : Nat, parseDigits (Nat.toDigits 10 n) = n := by
  intro n
  induction n using Nat.strong_induction_on with
  | _ n ih =>
    by_cases h : n < 10
    · rw [toDigits_small h]
      simp [parseDigits, digitChar_val h]
    · rw [toDigits_step (by omega), parseDigits_append,
          ih (n / 10) (Nat.div_lt_self (by omega) (by omega)),
          digitChar_val (Nat.mod_lt n (by omega))]
      omega

theorem repr_data (n : Nat) : (Nat.repr n).data = Nat.toDigits 10 n := rfl

theorem parse_repr (n : Nat) : parseNat (Nat.repr n) = n := parse_toDigits n

theorem repr_inj {a b : Nat} (h : Nat.repr a = Nat.repr b) : a = b := by
  have := parse_repr a
  rw [h, parse_repr b] at this
  omega

theorem parse_cons_zero (l : List Char) :
    parseDigits ('0' :: l) = parseDigits l := rfl

theorem parse_replicate_zero (k : Nat) (l : List Char) :
    parseDigits (List.replicate k '0' ++ l) = parseDigits l := by
  induction k with
  | zero => rfl
  | succ k ih => rw [List.replicate_succ, List.cons_append, parse_cons_zero, ih]

theorem parse_padStart4_repr (n : Nat) : parseNat (padStart4 (Nat.repr n)) = n := by
  unfold padStart4
  by_cases h : 4 ≤ (Nat.repr n).length
  · rw [if_pos h]; exact parse_repr n
  · rw [if_neg h]
    show parseDigits (String.data _) = n
    rw [String.data_append]
    show parseDigits (List.replicate _ '0' ++ _) = n
    rw [parse_replicate_zero]
    exact parse_repr n

theorem padStart4_repr_inj {a b : Nat}
    (h : padStart4 (Nat.repr a) = padStart4 (Nat.repr b)) : a = b := by
  have := parse_padStart4_repr a
  rw [h, parse_padStart4_repr b] at this
  omega

theorem toDigits_digit : ∀ n : Nat, ∀ c ∈ Nat.toDigits 10 n, '0' ≤ c ∧ c ≤ '9' := by
  intro n
  induction n using Nat.strong_induction_on with
  | _ n ih =>
    by_cases h : n < 10
    · rw [toDigits_small h]
      intro c hc
      rw [List.mem_singleton] at hc
      subst hc
      interval_cases n <;> exact ⟨by decide, by decide⟩
    · rw [toDigits_step (by omega)]
      intro c hc
      rw [List.mem_append] at hc
      rcases hc with hc | hc
      · exact ih (n / 10) (Nat.div_lt_self (by omega) (by omega)) c hc
      · rw [List.mem_singleton] at hc
        subst hc
        have h10 : n % 10 < 10 := Nat.mod_lt n (by omega)
        set d := n % 10 with hd
        interval_cases d <;> exact ⟨by decide, by decide⟩

theorem repr_not_sep {n : Nat} : 'x' ∉ (Nat.repr n).data := by
  rw [repr_data]
  intro hx
  have := toDigits_digit n 'x' hx
  exact absurd this.2 (by decide)

theorem sep_split : ∀ (l₁ l₂ r₁ r₂ : List Char), 'x' ∉ l₁ → 'x' ∉ l₂ →
    l₁ ++ 'x' :: r₁ = l₂ ++ 'x' :: r₂ → l₁ = l₂ ∧ r₁ = r₂ := by
  intro l₁
  induction l₁ with
  | nil =>
    intro l₂ r₁ r₂ _ h₂ h
    cases l₂ with
    | nil => simpa using h
    | cons b bs =>
      simp only [List.nil_append, List.cons_append, List.cons.injEq] at h
      exact absurd (h.1 ▸ List.mem_cons_self b bs) (h.1 ▸ h₂)
  | cons a as ih =>
    intro l₂ r₁ r₂ h₁ h₂ h
    cases l₂ with
    | nil =>
      simp only [List.cons_append, List.nil_append, List.cons.injEq] at h
      exact absurd (h.1 ▸ List.mem_cons_self a as) (fun hx => h₁ (h.1 ▸ hx))
    | cons b bs =>
      simp only [List.cons_append, List.cons.injEq] at h
      have := ih bs r₁ r₂ (fun hx => h₁ (List.mem_cons_of_mem a hx))
        (fun hx => h₂ (List.mem_cons_of_mem b hx)) h.2
      exact ⟨by rw [h.1, this.1], this.2⟩

/-!
Structural facts about `generatePeriod`: its identifier depends on an
instant only through the local day and the within-day slot index, two
identifiers of the same day with distinct slot indices differ, and for
the concrete calendar `cal0` distinct aligned slot starts never collide.
-/

theorem generatePeriod_data (cal : Calendar) (m : Mode) (t : Int) :
    (generatePeriod cal m t).data
      = (cal.dateCode (localDay cal t)).data ++ ((Nat.repr (modeSeconds m)).data
        ++ (padStart4 (Nat.repr (msOfDay cal t / 1000 / modeSeconds m + 1))).data) := by
  simp [generatePeriod, String.data_append, List.append_assoc]

theorem generatePeriod_congr (cal : Calendar) (m : Mode) {t₁ t₂ : Int}
    (hd : localDay cal t₁ = localDay cal t₂)
    (hs : msOfDay cal t₁ / 1000 / modeSeconds m = msOfDay cal t₂ / 1000 / modeSeconds m) :
    generatePeriod cal m t₁ = generatePeriod cal m t₂ := by
  apply String.ext
  rw [generatePeriod_data, generatePeriod_data, hd, hs]

theorem generatePeriod_ne_of_sameDay (cal : Calendar) (m : Mode) {t₁ t₂ : Int}
    (hd : localDay cal t₁ = localDay cal t₂)
    (hs : msOfDay cal t₁ / 1000 / modeSeconds m ≠ msOfDay cal t₂ / 1000 / modeSeconds m) :
    generatePeriod cal m t₁ ≠ generatePeriod cal m t₂ := by
  intro h
  have hdata := congrArg String.data h
  rw [generatePeriod_data, generatePeriod_data, hd] at hdata
  have h2 := List.append_cancel_left (List.append_cancel_left hdata)
  have := padStart4_repr_inj (String.ext h2)
  omega

theorem periodInj_cal0 (m : Mode) : PeriodInjOn cal0 m := by
  intro s₁ s₂ h₁ h₂ ha₁ ha₂ hne
  by_cases hd : localDay cal0 s₁ = localDay cal0 s₂
  · apply generatePeriod_ne_of_sameDay cal0 m hd
    have e₁ := Int.ediv_add_emod (s₁ + cal0.off) 86400000
    have e₂ := Int.ediv_add_emod (s₂ + cal0.off) 86400000
    have hm₁ : (0 : Int) ≤ (s₁ + cal0.off) % 86400000 := Int.emod_nonneg _ (by decide)
    have hm₂ : (0 : Int) ≤ (s₂ + cal0.off) % 86400000 := Int.emod_nonneg _ (by decide)
    unfold localDay at hd
    unfold msOfDay
    cases m <;>
      (simp only [modeSeconds]
       simp only [modeMs, modeSeconds] at ha₁ ha₂
       omega)
  · intro h
    have hdata := congrArg String.data h
    rw [generatePeriod_data, generatePeriod_data] at hdata
    have hx : (cal0.dateCode (localDay cal0 s₁)).data
        = (Nat.repr (localDay cal0 s₁).toNat).data ++ 'x' :: [] := by
      show (Nat.repr _ ++ "x").data = _
      rw [String.data_append]
    have hx₂ : (cal0.dateCode (localDay cal0 s₂)).data
        = (Nat.repr (localDay cal0 s₂).toNat).data ++ 'x' :: [] := by
      show (Nat.repr _ ++ "x").data = _
      rw [String.data_append]
    rw [hx, hx₂] at hdata
    rw [List.append_assoc, List.append_assoc] at hdata
    simp only [List.cons_append, List.nil_append] at hdata
    have := sep_split _ _ _ _ repr_not_sep repr_not_sep hdata
    have hdayeq := repr_inj (String.ext this.1)
    apply hd
    have hd₁ : (0 : Int) ≤ localDay cal0 s₁ := by
      unfold localDay
      exact Int.ediv_nonneg (by simpa [cal0] using h₁) (by decide)
    have hd₂ : (0 : Int) ≤ localDay cal0 s₂ := by
      unfold localDay
      exact Int.ediv_nonneg (by simpa [cal0] using h₂) (by decide)
    omega

theorem alignSlot_eq (m : Mode) (t : Int) :
    alignSlot m t = (t / modeMs m * modeMs m, t / modeMs m * modeMs m + modeMs m) := by
  cases m <;>
    (simp only [alignSlot, modeMs, modeSeconds]
     norm_num
     omega)

/-- C7: for every track and any two instants in the same epoch-aligned
slot (`t₁ / d = t₂ / d` in milliseconds), round creation computes the
same `(slotStart, slotEnd)`, with `slotStart = floor(now/d)*d` and
`slotEnd = slotStart + d` (the stale-slot bump of the source never
fires); the slot start one duration later is exactly one duration
greater. -/
theorem c7_grid_alignment (m : Mode) :
    (∀ t : Int, alignSlot m t
        = (t / modeMs m * modeMs m, t / modeMs m * modeMs m + modeMs m))
    ∧ (∀ t₁ t₂ : Int, t₁ / modeMs m = t₂ / modeMs m → alignSlot m t₁ = alignSlot m t₂)
    ∧ (∀ t : Int, (alignSlot m (t + modeMs m)).1 = (alignSlot m t).1 + modeMs m) := by
  refine ⟨alignSlot_eq m, ?_, ?_⟩
  · intro t₁ t₂ h
    rw [alignSlot_eq, alignSlot_eq, h]
  · intro t
    rw [alignSlot_eq, alignSlot_eq]
    cases m <;> (simp only [modeMs, modeSeconds]; norm_num; omega)

/-- Witness for C7: instants 31000 and 45000 lie in the same 30-second
slot and receive the same alignment. -/
theorem c7_witness :
    (31000 : Int) / modeMs .m30s = 45000 / modeMs .m30s ∧
    alignSlot .m30s 31000 = alignSlot .m30s 45000 :=
  ⟨by decide, (c7_grid_alignment .m30s).2.1 31000 45000 (by decide)⟩

theorem drawResult_mod (e : Nat) : drawResult e = drawResult (e % 10) := by
  unfold drawResult
  rw [show e % 10 % 10 = e % 10 from by omega]

/-- C8: the settlement outcome always draws a number in `0..9`, its color
is `red_violet` for 0, `green_violet` for 5, `green` on `{1,3,7,9}` and
`red` on `{2,4,6,8}`, and its size is `big` exactly when the number is at
least 5, else `small`; `settleRound` writes exactly this outcome to the
settled round. -/
theorem c8_outcome (cal : Calendar) (m : Mode) (now : Int) (e : Nat)
    (s : List Round) (r : Round) :
    (settleRound cal m now e s r = createNewRound cal m now
        (s.map fun x => if x.id = r.id then
          { r with status := .settled, result := some (drawResult e) } else x))
    ∧ (drawResult e).number < 10
    ∧ ((drawResult e).color = "red_violet" ↔ (drawResult e).number = 0)
    ∧ ((drawResult e).color = "green_violet" ↔ (drawResult e).number = 5)
    ∧ ((drawResult e).color = "green" ↔ (drawResult e).number ∈ [1, 3, 7, 9])
    ∧ ((drawResult e).color = "red" ↔ (drawResult e).number ∈ [2, 4, 6, 8])
    ∧ ((drawResult e).size = "big" ↔ 5 ≤ (drawResult e).number)
    ∧ ((drawResult e).size = "small" ↔ (drawResult e).number < 5) := by
  refine ⟨rfl, ?_⟩
  rw [drawResult_mod e]
  have h : e % 10 < 10 := Nat.mod_lt e (by omega)
  generalize e % 10 = k at h
  interval_cases k <;> exact ⟨by decide, by decide, by decide, by decide, by decide,
    by decide, by decide⟩

/-- C6: the period identifier of a track at an instant is the
concatenation of the calendar date code, the duration in seconds, and the
4-digit zero-padded period number `floor(secondsSinceLocalMidnight /
duration) + 1`; it depends on the instant only through the (day, slot)
pair, and distinct slots of one track within one day yield distinct
identifiers. -/
theorem c6_period_codec (cal : Calendar) (m : Mode) :
    (∀ t : Int, generatePeriod cal m t
        = cal.dateCode (localDay cal t) ++ Nat.repr (modeSeconds m)
          ++ padStart4 (Nat.repr (msOfDay cal t / 1000 / modeSeconds m + 1)))
    ∧ (∀ t₁ t₂ : Int, localDay cal t₁ = localDay cal t₂ →
        msOfDay cal t₁ / 1000 / modeSeconds m = msOfDay cal t₂ / 1000 / modeSeconds m →
        generatePeriod cal m t₁ = generatePeriod cal m t₂)
    ∧ (∀ t₁ t₂ : Int, localDay cal t₁ = localDay cal t₂ →
        msOfDay cal t₁ / 1000 / modeSeconds m ≠ msOfDay cal t₂ / 1000 / modeSeconds m →
        generatePeriod cal m t₁ ≠ generatePeriod cal m t₂) :=
  ⟨fun _ => rfl, fun _ _ => generatePeriod_congr cal m,
   fun _ _ => generatePeriod_ne_of_sameDay cal m⟩

/-- Witness for C6: instants 5000 and 7000 lie in the same 30-second slot
of the same day and share a period; slots 0 and 1 of one day have
distinct periods. -/
theorem c6_witness :
    generatePeriod cal0 .m30s 5000 = generatePeriod cal0 .m30s 7000 ∧
    generatePeriod cal0 .m30s 0 ≠ generatePeriod cal0 .m30s 30000 :=
  ⟨(c6_period_codec cal0 .m30s).2.1 5000 7000 rfl rfl,
   (c6_period_codec cal0 .m30s).2.2 0 30000 rfl (by decide)⟩

theorem parseMode_falsy {v : JsVal} {m : Mode} (h : parseMode v = some m) :
    v.falsy = false := by
  cases v with
  | num n => simp [parseMode] at h
  | str s =>
    unfold parseMode at h
    split at h <;>
      first
        | (rename_i heq; injection heq with h2; subst h2; rfl)
        | simp at h

theorem validBet_falsy {btv bvv : JsVal} (h : isValidBetValue btv bvv = true) :
    btv.falsy = false := by
  simp only [isValidBetValue, Bool.or_eq_true, Bool.and_eq_true, beq_iff_eq] at h
  rcases h with (⟨h, _⟩ | ⟨h, _⟩) | ⟨h, _⟩ <;> (subst h; rfl)

/-- C5: a well-formed wager (known track, truthy fields, amount at least
the minimum 10, bet value valid for its type) is accepted — and its
`Bet` document saved — exactly when the latest round of its track is
`open` with more than 5 seconds left; otherwise it is rejected with one
of the two state-conflict errors (round not open / betting closed),
never a validation error, and no `Bet` is created. -/
theorem c5_bet_window (mv btv bvv : JsVal) (amount multiplier : Int)
    (store : Mode → List Round) (now : Int) (mode : Mode) (bets : List Bet)
    (req : BetReq)
    (hreq : req = ⟨some mv, some btv, some bvv, some amount, some multiplier⟩)
    (hmode : parseMode mv = some mode)
    (hbv : bvv.falsy = false)
    (hamt : 10 ≤ amount)
    (hmul : multiplier ≠ 0)
    (hvalid : isValidBetValue btv bvv = true) :
    ((∃ b, placeBet req store now = .ok b
        ∧ applyBet bets (placeBet req store now) = bets ++ [b])
      ↔ ∃ r, latestRound (store mode) = some r ∧ r.status = .open_
          ∧ 5000 < r.endTime - now)
    ∧ ∀ err, placeBet req store now = .error err →
        err.isValidation = false ∧ (err = .roundNotOpen ∨ err = .bettingClosed) := by
  subst hreq
  have hane : ¬ amount < 10 := by omega
  have hguard : missingFieldsGuard
      ⟨some mv, some btv, some bvv, some amount, some multiplier⟩ = false := by
    simp [missingFieldsGuard, fieldFalsy, numFalsy, parseMode_falsy hmode,
      validBet_falsy hvalid, hbv, hmul]
    omega
  rcases hl : latestRound (store mode) with _ | r
  · have hpb : placeBet ⟨some mv, some btv, some bvv, some amount, some multiplier⟩
        store now = .error .roundNotOpen := by
      unfold placeBet
      simp [hguard, hmode, hvalid, hane, hl]
    rw [hpb]
    refine ⟨⟨fun h => ?_, fun h => ?_⟩, fun err herr => ?_⟩
    · rcases h with ⟨b, hb, _⟩
      exact absurd hb (by simp)
    · rcases h with ⟨r, hr, _⟩
      cases hr
    · cases herr
      exact ⟨rfl, Or.inl rfl⟩
  · by_cases hst : r.status = .open_
    · by_cases ht : r.endTime - now ≤ 5000
      · have hpb : placeBet ⟨some mv, some btv, some bvv, some amount, some multiplier⟩
            store now = .error .bettingClosed := by
          unfold placeBet
          simp [hguard, hmode, hvalid, hane, hl, hst, ht]
        rw [hpb]
        refine ⟨⟨fun h => ?_, fun h => ?_⟩, fun err herr => ?_⟩
        · rcases h with ⟨b, hb, _⟩
          exact absurd hb (by simp)
        · rcases h with ⟨r', hr', _, htl⟩
          injection hr' with h2
          subst h2
          omega
        · cases herr
          exact ⟨rfl, Or.inr rfl⟩
      · have hpb : placeBet ⟨some mv, some btv, some bvv, some amount, some multiplier⟩
            store now = .ok
            { roundId := r.id, period := r.period,
              mode := mv.toStr, betType := btv.toStr, betValue := bvv.toStr,
              amount := amount, multiplier := multiplier,
              totalAmount := amount * multiplier } := by
          unfold placeBet
          simp [hguard, hmode, hvalid, hane, hl, hst, ht]
        rw [hpb]
        refine ⟨⟨fun _ => ⟨r, rfl, hst, by omega⟩, fun _ => ⟨_, rfl, rfl⟩⟩,
          fun err herr => ?_⟩
        cases herr
    · have hpb : placeBet ⟨some mv, some btv, some bvv, some amount, some multiplier⟩
          store now = .error .roundNotOpen := by
        unfold placeBet
        simp [hguard, hmode, hvalid, hane, hl, hst]
      rw [hpb]
      refine ⟨⟨fun h => ?_, fun h => ?_⟩, fun err herr => ?_⟩
      · rcases h with ⟨b, hb, _⟩
        exact absurd hb (by simp)
      · rcases h with ⟨r', hr', hop, _⟩
        injection hr' with h2
        subst h2
        exact absurd hop hst
      · cases herr
        exact ⟨rfl, Or.inl rfl⟩

/-- Witness for C5: a valid color wager against a store whose 30-second
track has an open round with 28 seconds left is accepted. -/
theorem c5_witness :
    ((∃ b, placeBet
          ⟨some (.str "30s"), some (.str "color"), some (.str "green"),
            some 50, some 1⟩ store0 2000 = .ok b
        ∧ applyBet [] (placeBet
            ⟨some (.str "30s"), some (.str "color"), some (.str "green"),
              some 50, some 1⟩ store0 2000) = [] ++ [b])
      ↔ ∃ r, latestRound (store0 Mode.m30s) = some r ∧ r.status = .open_
          ∧ 5000 < r.endTime - 2000)
    ∧ ∀ err, placeBet
          ⟨some (.str "30s"), some (.str "color"), some (.str "green"),
            some 50, some 1⟩ store0 2000 = .error err →
        err.isValidation = false ∧ (err = .roundNotOpen ∨ err = .bettingClosed) :=
  c5_bet_window (.str "30s") (.str "color") (.str "green") 50 1
    store0 2000 .m30s [] _ rfl rfl rfl
    (by decide) (by decide) (by decide)

/-- C9: a wager whose amount is below the minimum 10, or whose bet value
lies outside its bet type's domain, is rejected with a validation-class
error and the bet collection is left unchanged. -/
theorem c9_validation (req : BetReq) (store : Mode → List Round) (now : Int)
    (bets : List Bet)
    (h : amountBelowMin req ∨ betValueOutOfDomain req) :
    ∃ err, placeBet req store now = .error err ∧ err.isValidation = true ∧
      applyBet bets (placeBet req store now) = bets := by
  suffices hm : ∃ err, placeBet req store now = .error err ∧ err.isValidation = true by
    rcases hm with ⟨err, he, hv⟩
    exact ⟨err, he, hv, by rw [he]; rfl⟩
  unfold placeBet
  split
  · exact ⟨.missingFields, rfl, rfl⟩
  · rcases req with ⟨mo, bt, bv, am, mu⟩
    split
    · next mv btv bvv amount multiplier heq1 heq2 heq3 heq4 heq5 =>
      split
      · exact ⟨.invalidMode, rfl, rfl⟩
      · split
        · exact ⟨.minimumBet, rfl, rfl⟩
        · split
          · exact ⟨.invalidBetValue, rfl, rfl⟩
          · next hmode hamt hvalid =>
            exfalso
            cases heq1; cases heq2; cases heq3; cases heq4; cases heq5
            rcases h with h | h
            · simp only [amountBelowMin] at h
              omega
            · simp only [Bool.not_eq_true] at hvalid
              rw [Bool.not_eq_false'] at hvalid
              simp only [isValidBetValue, Bool.or_eq_true, Bool.and_eq_true,
                beq_iff_eq] at hvalid
              rcases h with ⟨hb, v, hv, hc⟩ | ⟨hb, v, hv, hc⟩ | ⟨hb, v, hv, hc⟩ <;>
                simp_all
    · next hfall =>
      exact ⟨.missingFields, rfl, rfl⟩

/-- Witness for C9: a wager of amount 5 is rejected with a validation
error. -/
theorem c9_witness :
    ∃ err, placeBet
        ⟨some (.str "30s"), some (.str "color"), some (.str "green"),
          some 5, some 1⟩ (fun _ => []) 0 = .error err ∧
      err.isValidation = true ∧
      applyBet [] (placeBet
        ⟨some (.str "30s"), some (.str "color"), some (.str "green"),
          some 5, some 1⟩ (fun _ => []) 0) = [] :=
  c9_validation _ (fun _ => []) 0 [] (Or.inl (show (5 : Int) < 10 by decide))

/-- C10: a wager request in which any of the five fields is absent or
JS-falsy — including a numeric bet value 0 and a multiplier 0 — is
rejected as `Missing fields` before any other validation and no `Bet` is
created; consequently every accepted bet carries the (non-falsy)
multiplier sent with the request, so the schema default of 1 is never
applied. -/
theorem c10_missing_fields (req : BetReq) (store : Mode → List Round) (now : Int)
    (bets : List Bet) :
    (missingFieldsGuard req = true →
      placeBet req store now = .error .missingFields ∧
      applyBet bets (placeBet req store now) = bets)
    ∧ (∀ b, placeBet req store now = .ok b →
        req.multiplier = some b.multiplier ∧ b.multiplier ≠ 0) := by
  constructor
  · intro h
    have hp : placeBet req store now = .error .missingFields := by
      unfold placeBet
      rw [if_pos h]
    exact ⟨hp, by rw [hp]; rfl⟩
  · intro b hb
    unfold placeBet at hb
    by_cases h : missingFieldsGuard req = true
    · rw [if_pos h] at hb
      exact absurd hb (by simp)
    · rw [if_neg h] at hb
      rcases req with ⟨mo, bt, bv, am, mu⟩
      simp only [missingFieldsGuard, Bool.or_eq_true, not_or] at h
      cases mo with
      | none => simp [fieldFalsy] at h
      | some mv =>
      cases bt with
      | none => simp [fieldFalsy] at h
      | some btv =>
      cases bv with
      | none => simp [fieldFalsy] at h
      | some bvv =>
      cases am with
      | none => simp [numFalsy] at h
      | some amount =>
      cases mu with
      | none => simp [numFalsy] at h
      | some multiplier =>
      simp only at hb
      split at hb
      · exact absurd hb (by simp)
      · split at hb
        · exact absurd hb (by simp)
        · split at hb
          · exact absurd hb (by simp)
          · split at hb
            · exact absurd hb (by simp)
            · split at hb
              · exact absurd hb (by simp)
              · split at hb
                · exact absurd hb (by simp)
                · cases hb
                  refine ⟨rfl, ?_⟩
                  have hmu := h.2
                  simp only [numFalsy, beq_eq_false_iff_ne, ne_eq,
                    Bool.not_eq_true] at hmu
                  simpa using hmu

/-- Witness for C10: a number wager sent with the numeric bet value 0 is
rejected as missing fields. -/
theorem c10_witness :
    placeBet
        ⟨some (.str "30s"), some (.str "number"), some (.num 0),
          some 50, some 1⟩ (fun _ => []) 0 = .error .missingFields ∧
      applyBet [] (placeBet
        ⟨some (.str "30s"), some (.str "number"), some (.num 0),
          some 50, some 1⟩ (fun _ => []) 0) = [] :=
  (c10_missing_fields _ (fun _ => []) 0 []).1 (by decide)


/-!
Helper lemmas about the store representation: the latest-round query,
identity-keyed updates, and preservation of the engine invariant by
`createNewRound` and `tick`.
-/

theorem latestRound_none {s : List Round} (h : latestRound s = none) : s = [] := by
  cases s with
  | nil => rfl
  | cons r rs =>
    exfalso
    unfold latestRound at h
    cases hl : latestRound rs with
    | none => rw [hl] at h; cases h
    | some b => rw [hl] at h; by_cases hb : b.startTime > r.startTime <;> simp [hb] at h

theorem latestRound_mem : ∀ {s : List Round} {r : Round}, latestRound s = some r → r ∈ s := by
  intro s
  induction s with
  | nil => intro r h; cases h
  | cons a l ih =>
    intro r h
    unfold latestRound at h
    cases hl : latestRound l with
    | none =>
      rw [hl] at h
      cases h
      exact List.mem_cons_self a l
    | some b =>
      rw [hl] at h
      have h2 : (if b.startTime > a.startTime then some b else some a) = some r := h
      by_cases hb : b.startTime > a.startTime
      · rw [if_pos hb] at h2
        cases h2
        exact List.mem_cons_of_mem a (ih hl)
      · rw [if_neg hb] at h2
        cases h2
        exact List.mem_cons_self a l

theorem latestRound_head : ∀ {s : List Round},
    List.Chain' (fun a b => b.startTime < a.startTime) s → latestRound s = s.head? := by
  intro s
  induction s with
  | nil => intro _; rfl
  | cons a l ih =>
    intro hc
    unfold latestRound
    cases l with
    | nil => rfl
    | cons b bs =>
      have hcl : List.Chain' (fun a b => b.startTime < a.startTime) (b :: bs) :=
        (List.chain'_cons'.mp hc).2
      rw [ih hcl]
      have hab : b.startTime < a.startTime := (List.chain'_cons.mp hc).1
      show (if b.startTime > a.startTime then some b else some a) = some a
      rw [if_neg (by omega)]

theorem mem_id_unique : ∀ {s : List Round},
    List.Pairwise (fun a b => a.id ≠ b.id) s → ∀ {r x : Round}, r ∈ s → x ∈ s →
      r.id = x.id → r = x := by
  intro s
  induction s with
  | nil => intro _ r x hr; cases hr
  | cons a l ih =>
    intro hp r x hr hx hid
    rcases List.pairwise_cons.mp hp with ⟨ha, hl⟩
    rcases List.mem_cons.mp hr with hr | hr <;> rcases List.mem_cons.mp hx with hx | hx
    · rw [hr, hx]
    · exact absurd (hr ▸ hid) (ha x hx)
    · exact absurd (hx ▸ hid).symm (ha r hr)
    · exact ih hl hr hx hid

theorem map_noop {rid : Nat} {r' : Round} : ∀ {l : List Round},
    (∀ x ∈ l, x.id ≠ rid) → l.map (fun x => if x.id = rid then r' else x) = l := by
  intro l
  induction l with
  | nil => intro _; rfl
  | cons a as ih =>
    intro h
    simp only [List.map_cons]
    rw [if_neg (h a (List.mem_cons_self a as)),
      ih (fun x hx => h x (List.mem_cons_of_mem a hx))]

theorem modeMs_pos (m : Mode) : (0 : Int) < modeMs m := by cases m <;> decide

theorem inv_create (cal : Calendar) (m : Mode) (t : Int) (s : List Round)
    (hInv : Inv cal m t s) (hset : ∀ r ∈ s, r.status = Status.settled) :
    Inv cal m t (createNewRound cal m t s) := by
  obtain ⟨ht0, hpt, hch, htail, hidlt, hpw⟩ := hInv
  unfold createNewRound
  rw [alignSlot_eq]
  cases hf : s.find? (fun r => r.period == generatePeriod cal m (t / modeMs m * modeMs m)) with
  | some x => exact ⟨ht0, hpt, hch, htail, hidlt, hpw⟩
  | none =>
    have hnone := List.find?_eq_none.mp hf
    have hmm := modeMs_pos m
    have ha0 : 0 ≤ t / modeMs m * modeMs m :=
      mul_nonneg (Int.ediv_nonneg ht0 hmm.le) hmm.le
    have haal : t / modeMs m * modeMs m % modeMs m = 0 := Int.mul_emod_left _ _
    have hat : t / modeMs m * modeMs m ≤ t := Int.ediv_mul_le t hmm.ne'
    have hlt_a : ∀ x ∈ s, x.startTime < t / modeMs m * modeMs m := by
      intro x hx
      have hxal := (hpt x hx).2.1
      have hxle := (hpt x hx).2.2.2.2
      have hxa : x.startTime ≤ t / modeMs m * modeMs m := by
        have h1 : x.startTime / modeMs m ≤ t / modeMs m := Int.ediv_le_ediv hmm hxle
        have h2 : x.startTime / modeMs m * modeMs m = x.startTime :=
          Int.ediv_mul_cancel (Int.dvd_of_emod_eq_zero hxal)
        calc x.startTime = x.startTime / modeMs m * modeMs m := h2.symm
          _ ≤ t / modeMs m * modeMs m := by
              exact mul_le_mul_of_nonneg_right h1 hmm.le
      rcases lt_or_eq_of_le hxa with h | h
      · exact h
      · exfalso
        apply hnone x hx
        rw [(hpt x hx).2.2.2.1, h]
        exact beq_self_eq_true _
    refine ⟨ht0, ?_, ?_, ?_, ?_, ?_⟩
    · intro r hr
      rcases List.mem_cons.mp hr with h | h
      · subst h
        exact ⟨ha0, haal, rfl, rfl, hat⟩
      · exact hpt r h
    · cases s with
      | nil => simp
      | cons b bs =>
        exact List.chain'_cons.mpr ⟨hlt_a b (List.mem_cons_self b bs), hch⟩
    · intro r hr
      exact hset r hr
    · intro r hr
      rcases List.mem_cons.mp hr with h | h
      · subst h
        simp
      · have := hidlt r h
        simp only [List.length_cons]
        omega
    · refine List.pairwise_cons.mpr ⟨?_, hpw⟩
      intro x hx
      have := hidlt x hx
      show s.length ≠ x.id
      omega

theorem inv_mono {cal : Calendar} {m : Mode} {t t' : Int} {s : List Round}
    (hInv : Inv cal m t s) (h : t ≤ t') : Inv cal m t' s := by
  obtain ⟨ht0, hpt, hch, htail, hidlt, hpw⟩ := hInv
  exact ⟨le_trans ht0 h, fun r hr => ⟨(hpt r hr).1, (hpt r hr).2.1, (hpt r hr).2.2.1,
    (hpt r hr).2.2.2.1, le_trans (hpt r hr).2.2.2.2 h⟩, hch, htail, hidlt, hpw⟩

theorem map_head_eq {r : Round} {rest : List Round} (r' : Round)
    (hpw : List.Pairwise (fun a b => a.id ≠ b.id) (r :: rest)) :
    (r :: rest).map (fun x => if x.id = r.id then r' else x) = r' :: rest := by
  simp only [List.map_cons, eq_self_iff_true, if_true]
  rw [map_noop]
  intro x hx
  exact fun h => (List.pairwise_cons.mp hpw).1 x hx h.symm

theorem inv_head_update {cal : Calendar} {m : Mode} {t : Int} {r : Round}
    {rest : List Round} (hInv : Inv cal m t (r :: rest)) (st : Status)
    (res : Option RoundResult) :
    Inv cal m t ({ r with status := st, result := res } :: rest) := by
  obtain ⟨ht0, hpt, hch, htail, hidlt, hpw⟩ := hInv
  have hchd := List.chain'_cons'.mp hch
  have hpc := List.pairwise_cons.mp hpw
  refine ⟨ht0, ?_, ?_, ?_, ?_, ?_⟩
  · intro x hx
    rcases List.mem_cons.mp hx with h | h
    · subst h
      exact hpt r (List.mem_cons_self r rest)
    · exact hpt x (List.mem_cons_of_mem _ h)
  · exact List.chain'_cons'.mpr ⟨hchd.1, hchd.2⟩
  · intro x hx
    exact htail x hx
  · intro x hx
    rcases List.mem_cons.mp hx with h | h
    · subst h
      exact hidlt r (List.mem_cons_self r rest)
    · exact hidlt x (List.mem_cons_of_mem _ h)
  · exact List.pairwise_cons.mpr ⟨fun x hx => hpc.1 x hx, hpc.2⟩

theorem tick_inv {cal : Calendar} {m : Mode} {t : Int} {s : List Round}
    (hInv : Inv cal m t s) (t' : Int) (e : Nat) (hle : t ≤ t') :
    Inv cal m t' (tick cal m t' e s) := by
  have hInv' := inv_mono hInv hle
  unfold tick
  split
  · next heq =>
    have hs : s = [] := latestRound_none heq
    subst hs
    exact inv_create cal m t' [] hInv' (by intro r hr; cases hr)
  · next round heq =>
    obtain ⟨ht0, hpt, hch, htail, hidlt, hpw⟩ := hInv'
    have hhead : s.head? = some round := by rw [← latestRound_head hch]; exact heq
    cases s with
    | nil => cases hhead
    | cons a rest =>
      have hhead2 : some a = some round := hhead
      injection hhead2 with ha
      subst ha
      split
      · next hsett =>
        refine inv_create cal m t' _ ⟨ht0, hpt, hch, htail, hidlt, hpw⟩ ?_
        intro r hr
        rcases List.mem_cons.mp hr with h | h
        · subst h
          exact hsett
        · exact htail r h
      · next hsett =>
        split
        · next hlock =>
          rw [map_head_eq _ hpw]
          exact inv_head_update ⟨ht0, hpt, hch, htail, hidlt, hpw⟩ .locked a.result
        · next hlock =>
          split
          · next hsl =>
            unfold settleRound
            show Inv cal m t' (createNewRound cal m t' ((a :: rest).map
              (fun x => if x.id = a.id then
                { a with status := .settled, result := some (drawResult e) } else x)))
            rw [map_head_eq _ hpw]
            refine inv_create cal m t' _
              (inv_head_update ⟨ht0, hpt, hch, htail, hidlt, hpw⟩ .settled
                (some (drawResult e))) ?_
            intro r hr
            rcases List.mem_cons.mp hr with h | h
            · subst h
              rfl
            · exact htail r h
          · next hsl =>
            exact ⟨ht0, hpt, hch, htail, hidlt, hpw⟩

theorem engineReach_inv {cal : Calendar} {m : Mode} {t : Int} {s : List Round}
    (h : EngineReach cal m t s) : Inv cal m t s := by
  induction h with
  | start t ht =>
    exact inv_create cal m t []
      ⟨ht, (by intro r hr; cases hr), List.chain'_nil, (by intro r hr; cases hr),
        (by intro r hr; cases hr), List.Pairwise.nil⟩
      (by intro r hr; cases hr)
  | step t t' e s h hle ih =>
    exact tick_inv ih t' e hle


theorem activeCount_le_one {s : List Round}
    (h : ∀ r ∈ s.tail, r.status = Status.settled) : activeCount s ≤ 1 := by
  cases s with
  | nil => decide
  | cons a rest =>
    unfold activeCount
    have hrest : rest.filter
        (fun r => decide (r.status = Status.open_ ∨ r.status = Status.locked)) = [] := by
      rw [List.filter_eq_nil_iff]
      intro x hx
      have := h x hx
      simp [this]
    simp only [List.filter_cons]
    by_cases ha : a.status = Status.open_ ∨ a.status = Status.locked
    · rw [if_pos (by simpa using ha), hrest]
      exact le_refl 1
    · rw [if_neg (by simpa using ha), hrest]
      exact Nat.zero_le 1

/-- Counterexample to C1 as stated: the startup path invokes
`createNewRound` unconditionally, so a second startup (a process restart)
at 61s over a store still holding the open round of slot 0 creates a
second open round: two rounds of the track are simultaneously open, and
the creation happened although the prior (latest) round was not settled. -/
theorem c1_counterexample :
    activeCount (createNewRound cal0 .m30s 61000 (createNewRound cal0 .m30s 1000 [])) = 2
    ∧ (∃ r, latestRound (createNewRound cal0 .m30s 1000 []) = some r
        ∧ ¬ r.status = Status.settled) := by
  constructor
  · decide
  · exact ⟨_, rfl, by decide⟩

/-- C1 (amended): in a single engine run — one startup `createNewRound`
on the empty store followed by game-loop ticks at nondecreasing instants
— at most one round of the track is `open` or `locked` at any reachable
state, and every round except the latest is settled (so ticks create a
round only when none exists or the latest is settled). -/
theorem c1_single_active (cal : Calendar) (m : Mode) (t : Int) (s : List Round)
    (h : EngineReach cal m t s) :
    activeCount s ≤ 1 ∧ ∀ r ∈ s.tail, r.status = Status.settled := by
  have hInv := engineReach_inv h
  exact ⟨activeCount_le_one hInv.2.2.2.1, hInv.2.2.2.1⟩

/-- Witness for C1: the store right after startup has one active round. -/
theorem c1_witness :
    activeCount (createNewRound cal0 .m30s 1000 []) ≤ 1 ∧
      ∀ r ∈ (createNewRound cal0 .m30s 1000 []).tail, r.status = Status.settled :=
  c1_single_active cal0 .m30s 1000 _ (EngineReach.start 1000 (by decide))

/-- Counterexample to C2 as stated: at 31s the latest round of slot 0 is
still `open` with `timeLeft = -1s ≤ 0` and not settled, yet the tick only
locks it — its status becomes `locked`, no result is populated, and no
successor round is created on that tick (the lock branch shadows the
settle branch for open rounds). -/
theorem c2_counterexample :
    latestRound (createNewRound cal0 .m30s 1000 [])
      = some
          { id := 0, period := generatePeriod cal0 .m30s 0, startTime := 0,
            endTime := 30000, status := .open_, result := none }
    ∧ ((30000 : Int) - 31000 ≤ 0)
    ∧ tick cal0 .m30s 31000 7 (createNewRound cal0 .m30s 1000 [])
      = [{ id := 0, period := generatePeriod cal0 .m30s 0, startTime := 0,
           endTime := 30000, status := .locked, result := none }] := by
  refine ⟨?_, by decide, ?_⟩ <;> decide


theorem head_max {s : List Round} {r : Round}
    (hch : List.Chain' (fun a b => b.startTime < a.startTime) s)
    (hh : s.head? = some r) : ∀ x ∈ s, x.startTime ≤ r.startTime := by
  cases s with
  | nil => cases hh
  | cons a rest =>
    have ha : a = r := by
      have h2 : some a = some r := hh
      injection h2
    subst ha
    haveI : IsTrans Round (fun a b => b.startTime < a.startTime) :=
      ⟨fun _ _ _ h1 h2 => lt_trans h2 h1⟩
    rw [List.chain'_iff_pairwise] at hch
    intro x hx
    rcases List.mem_cons.mp hx with h | h
    · rw [h]
    · exact le_of_lt ((List.pairwise_cons.mp hch).1 x h)

/-- C2 (amended): on a tick whose latest round is `locked` with
`timeLeft ≤ 0`, the round is settled on that same tick — its result is
populated and its status becomes `settled` — and a successor round for
the slot containing the current instant is created in `open` status.
(An `open` round with `timeLeft ≤ 0` is instead locked on that tick and
settled on a later one, see the counterexample.) -/
theorem c2_settle_locked (cal : Calendar) (m : Mode) (t : Int) (s : List Round)
    (h : EngineReach cal m t s) (hpi : PeriodInjOn cal m)
    (now : Int) (e : Nat) (r : Round) (hle : t ≤ now)
    (hlat : latestRound s = some r) (hlk : r.status = .locked)
    (htl : r.endTime - now ≤ 0) :
    tick cal m now e s
      = { id := s.length, period := generatePeriod cal m (now / modeMs m * modeMs m),
          startTime := now / modeMs m * modeMs m,
          endTime := now / modeMs m * modeMs m + modeMs m,
          status := Status.open_, result := none }
        :: s.map (fun x => if x.id = r.id then
            { r with status := .settled, result := some (drawResult e) } else x) := by
  have hInv := inv_mono (engineReach_inv h) hle
  obtain ⟨ht0, hpt, hch, htail, hidlt, hpw⟩ := hInv
  have hmm := modeMs_pos m
  have hrmem := latestRound_mem hlat
  have hhead : s.head? = some r := by rw [← latestRound_head hch]; exact hlat
  have hmax := head_max hch hhead
  have hrpt := hpt r hrmem
  have hslot : ∀ x ∈ s, x.startTime < now / modeMs m * modeMs m := by
    intro x hx
    have hxr := hmax x hx
    have hr1 : r.startTime + modeMs m ≤ now := by
      have := hrpt.2.2.1
      omega
    have h2 : (r.startTime + modeMs m) / modeMs m ≤ now / modeMs m :=
      Int.ediv_le_ediv hmm hr1
    have h3 : (r.startTime + modeMs m) / modeMs m = r.startTime / modeMs m + 1 := by
      have := Int.add_mul_ediv_right r.startTime 1 hmm.ne'
      simpa using this
    have h4 : r.startTime / modeMs m * modeMs m = r.startTime :=
      Int.ediv_mul_cancel (Int.dvd_of_emod_eq_zero hrpt.2.1)
    have h5 : (r.startTime / modeMs m + 1) * modeMs m ≤ now / modeMs m * modeMs m :=
      mul_le_mul_of_nonneg_right (h3 ▸ h2) hmm.le
    have h6 : r.startTime + modeMs m ≤ now / modeMs m * modeMs m := by
      rw [add_mul, one_mul, h4] at h5
      exact h5
    omega
  unfold tick
  split
  · next heq =>
    rw [hlat] at heq
    cases heq
  · next round heq =>
    rw [hlat] at heq
    injection heq with hre
    subst hre
    split
    · next hsett =>
      rw [hlk] at hsett
      cases hsett
    · next =>
      split
      · next hcond =>
        exfalso
        rw [hlk] at hcond
        rcases hcond with ⟨_, hco⟩
        cases hco
      · next =>
        split
        · next hcond =>
          unfold settleRound
          show createNewRound cal m now (s.map (fun x => if x.id = r.id then
            { r with status := .settled, result := some (drawResult e) } else x)) = _
          unfold createNewRound
          rw [alignSlot_eq]
          have hfind : (s.map (fun x => if x.id = r.id then
              { r with status := .settled, result := some (drawResult e) } else x)).find?
                (fun x => x.period == generatePeriod cal m (now / modeMs m * modeMs m))
              = none := by
            rw [List.find?_eq_none]
            intro x hx
            rcases List.mem_map.mp hx with ⟨y, hy, hfy⟩
            have hyal := (hpt y hy).2.1
            have hy0 := (hpt y hy).1
            have hxper : x.period = generatePeriod cal m y.startTime := by
              rw [← hfy]
              by_cases hid : y.id = r.id
              · have hyr : y = r := mem_id_unique hpw hy hrmem hid
                rw [if_pos hid]
                show r.period = _
                rw [hrpt.2.2.2.1, hyr]
              · rw [if_neg hid]
                exact (hpt y hy).2.2.2.1
            have hne : y.startTime ≠ now / modeMs m * modeMs m := by
              have := hslot y hy
              omega
            have hnewal : now / modeMs m * modeMs m % modeMs m = 0 :=
              Int.mul_emod_left _ _
            have hnew0 : 0 ≤ now / modeMs m * modeMs m := by
              have := hslot r hrmem
              have := hrpt.1
              omega
            have hperne := hpi y.startTime (now / modeMs m * modeMs m)
              hy0 hnew0 hyal hnewal hne
            rw [hxper]
            simp only [beq_iff_eq]
            exact hperne
          rw [hfind]
          show _ :: _ = _
          rw [List.length_map]
        · next hcond =>
          exfalso
          rw [hlk] at hcond
          apply hcond
          exact ⟨by omega, by intro hh; cases hh⟩

/-- Witness for C2: the slot-0 round, locked at 26s, is settled by the
tick at 31s with its result populated, and an open successor for the
slot 30s-60s is created on the same tick. -/
theorem c2_witness :
    tick cal0 .m30s 31000 7 (tick cal0 .m30s 26000 3 (createNewRound cal0 .m30s 1000 []))
      = { id := (tick cal0 .m30s 26000 3 (createNewRound cal0 .m30s 1000 [])).length,
          period := generatePeriod cal0 .m30s (31000 / modeMs .m30s * modeMs .m30s),
          startTime := 31000 / modeMs .m30s * modeMs .m30s,
          endTime := 31000 / modeMs .m30s * modeMs .m30s + modeMs .m30s,
          status := Status.open_, result := none }
        :: (tick cal0 .m30s 26000 3 (createNewRound cal0 .m30s 1000 [])).map
            (fun x => if x.id = 0 then
              { id := 0, period := generatePeriod cal0 .m30s 0, startTime := 0,
                endTime := 30000, status := Status.settled,
                result := some (drawResult 7) } else x) :=
  c2_settle_locked cal0 .m30s 26000 _
    (EngineReach.step 1000 26000 3 _ (EngineReach.start 1000 (by decide)) (by decide))
    (periodInj_cal0 .m30s) 31000 7
    { id := 0, period := generatePeriod cal0 .m30s 0, startTime := 0,
      endTime := 30000, status := Status.locked, result := none }
    (by decide) (by decide) rfl (by decide)

/-- Counterexample to C3 as stated: an `open` round whose `timeLeft` is
already negative (endTime 30s, now 32s) still transitions to `locked` on
the tick, although `0 < timeLeft` fails — the lock rule has no lower
bound on `timeLeft`. -/
theorem c3_counterexample :
    latestRound (createNewRound cal0 .m30s 1000 [])
      = some
          { id := 0, period := generatePeriod cal0 .m30s 0, startTime := 0,
            endTime := 30000, status := .open_, result := none }
    ∧ ¬ (0 < (30000 : Int) - 32000)
    ∧ tick cal0 .m30s 32000 5 (createNewRound cal0 .m30s 1000 [])
      = [{ id := 0, period := generatePeriod cal0 .m30s 0, startTime := 0,
           endTime := 30000, status := .locked, result := none }] := by
  refine ⟨?_, by decide, ?_⟩ <;> decide

/-- C3 (amended): on a tick whose latest round is `open`, the round
transitions to `locked` if and only if `timeLeft ≤ 5` seconds — with no
lower bound, so an overdue open round is locked as well — and an open
round with `timeLeft > 5` undergoes no transition at all. -/
theorem c3_lock_rule (cal : Calendar) (m : Mode) (t : Int) (s : List Round)
    (h : EngineReach cal m t s) (now : Int) (e : Nat) (r : Round)
    (hlat : latestRound s = some r) (hopen : r.status = .open_) :
    (r.endTime - now ≤ 5000 →
      tick cal m now e s
          = s.map (fun x => if x.id = r.id then { r with status := .locked } else x)
        ∧ ∃ r' ∈ tick cal m now e s, r'.id = r.id ∧ r'.status = .locked)
    ∧ (5000 < r.endTime - now → tick cal m now e s = s) := by
  have hInv := engineReach_inv h
  constructor
  · intro htl
    have hpb : tick cal m now e s
        = s.map (fun x => if x.id = r.id then { r with status := .locked } else x) := by
      unfold tick
      split
      · next heq =>
        rw [hlat] at heq
        cases heq
      · next round heq =>
        rw [hlat] at heq
        injection heq with hre
        subst hre
        split
        · next hsett =>
          rw [hopen] at hsett
          cases hsett
        · next =>
          split
          · next hcond => rfl
          · next hcond => exact absurd ⟨htl, hopen⟩ hcond
    refine ⟨hpb, ?_⟩
    rw [hpb]
    refine ⟨{ r with status := .locked }, ?_, rfl, rfl⟩
    have hmem := latestRound_mem hlat
    have := List.mem_map_of_mem
      (fun x => if x.id = r.id then { r with status := .locked } else x) hmem
    simpa using this
  · intro htg
    unfold tick
    split
    · next heq =>
      rw [hlat] at heq
      cases heq
    · next round heq =>
      rw [hlat] at heq
      injection heq with hre
      subst hre
      split
      · next hsett =>
        rw [hopen] at hsett
        cases hsett
      · next =>
        split
        · next hcond =>
          exfalso
          omega
        · next =>
          split
          · next hcond =>
            exfalso
            omega
          · next => rfl

/-- Witness for C3: the slot-0 round, open at 26s with 4 seconds left, is
locked by that tick. -/
theorem c3_witness :
    tick cal0 .m30s 26000 3 (createNewRound cal0 .m30s 1000 [])
        = (createNewRound cal0 .m30s 1000 []).map
            (fun x => if x.id = 0 then
              { id := 0, period := generatePeriod cal0 .m30s 0, startTime := 0,
                endTime := 30000, status := Status.locked, result := none } else x)
      ∧ ∃ r' ∈ tick cal0 .m30s 26000 3 (createNewRound cal0 .m30s 1000 []),
          r'.id = (0 : Nat) ∧ r'.status = .locked :=
  (c3_lock_rule cal0 .m30s 1000 _ (EngineReach.start 1000 (by decide)) 26000 3 _
    rfl rfl).1 (by decide)

theorem mem_createNewRound {cal : Calendar} {m : Mode} {t : Int} {s : List Round}
    {r : Round} (h : r ∈ s) : r ∈ createNewRound cal m t s := by
  unfold createNewRound
  cases hf : s.find? (fun x => x.period == generatePeriod cal m (alignSlot m t).1) with
  | some x => exact h
  | none => exact List.mem_cons_of_mem _ h

theorem createNewRound_cases {cal : Calendar} {m : Mode} {t : Int} {s : List Round}
    {r' : Round} (h : r' ∈ createNewRound cal m t s) :
    r' ∈ s ∨ r'
      = { id := s.length, period := generatePeriod cal m (alignSlot m t).1,
          startTime := (alignSlot m t).1, endTime := (alignSlot m t).2,
          status := Status.open_, result := none } := by
  unfold createNewRound at h
  cases hf : s.find? (fun x => x.period == generatePeriod cal m (alignSlot m t).1) with
  | some x =>
    rw [hf] at h
    exact Or.inl h
  | none =>
    rw [hf] at h
    rcases List.mem_cons.mp h with h | h
    · exact Or.inr h
    · exact Or.inl h

theorem IdOk_map {s : List Round} (f : Round → Round) (hf : ∀ x, (f x).id = x.id)
    (h : IdOk s) : IdOk (s.map f) := by
  constructor
  · intro r' hr'
    rcases List.mem_map.mp hr' with ⟨x, hx, hfx⟩
    rw [← hfx, hf, List.length_map]
    exact h.1 x hx
  · exact List.pairwise_map.mpr (h.2.imp (by intro a b hab; rw [hf, hf]; exact hab))

theorem IdOk_create {cal : Calendar} {m : Mode} {t : Int} {s : List Round}
    (h : IdOk s) : IdOk (createNewRound cal m t s) := by
  unfold createNewRound
  cases hf : s.find? (fun x => x.period == generatePeriod cal m (alignSlot m t).1) with
  | some x => exact h
  | none =>
    constructor
    · intro r hr
      rcases List.mem_cons.mp hr with hh | hh
      · subst hh
        simp
      · have := h.1 r hh
        simp only [List.length_cons]
        omega
    · refine List.pairwise_cons.mpr ⟨?_, h.2⟩
      intro x hx
      have := h.1 x hx
      show s.length ≠ x.id
      omega

theorem lockf_id (round : Round) :
    ∀ x : Round, ((fun x => if x.id = round.id then
      { round with status := Status.locked } else x) x).id = x.id := by
  intro x
  show (if x.id = round.id then { round with status := Status.locked } else x).id = x.id
  by_cases hid : x.id = round.id
  · rw [if_pos hid]
    exact hid.symm
  · rw [if_neg hid]

theorem settlef_id (round : Round) (e : Nat) :
    ∀ x : Round, ((fun x => if x.id = round.id then
      { round with status := Status.settled, result := some (drawResult e) } else x) x).id
      = x.id := by
  intro x
  show (if x.id = round.id then
    { round with status := Status.settled, result := some (drawResult e) } else x).id = x.id
  by_cases hid : x.id = round.id
  · rw [if_pos hid]
    exact hid.symm
  · rw [if_neg hid]

theorem IdOk_tick {cal : Calendar} {m : Mode} {t : Int} {e : Nat} {s : List Round}
    (h : IdOk s) : IdOk (tick cal m t e s) := by
  unfold tick
  split
  · exact IdOk_create h
  · next round heq =>
    split
    · exact IdOk_create h
    · split
      · exact IdOk_map _ (lockf_id round) h
      · split
        · next =>
          unfold settleRound
          exact IdOk_create (IdOk_map _ (settlef_id round e) h)
        · exact h

theorem IdOk_runOp {cal : Calendar} {m : Mode} {s : List Round} {op : EngineOp}
    (h : IdOk s) : IdOk (runOp cal m s op) := by
  cases op with
  | createOp t => exact IdOk_create h
  | tickOp t e => exact IdOk_tick h

theorem statusRank_le_two (st : Status) : statusRank st ≤ 2 := by cases st <;> decide

theorem runOp_mono {cal : Calendar} {m : Mode} {s : List Round} (op : EngineOp)
    (hid : IdOk s) :
    ∀ r ∈ s, ∃ r' ∈ runOp cal m s op, r'.id = r.id ∧ r'.period = r.period
      ∧ r'.startTime = r.startTime ∧ r'.endTime = r.endTime
      ∧ statusRank r.status ≤ statusRank r'.status
      ∧ (r.status = .settled → r' = r) := by
  intro r hr
  cases op with
  | createOp t =>
    exact ⟨r, mem_createNewRound hr, rfl, rfl, rfl, rfl, le_refl _, fun _ => rfl⟩
  | tickOp t e =>
    show ∃ r' ∈ tick cal m t e s, _
    unfold tick
    split
    · exact ⟨r, mem_createNewRound hr, rfl, rfl, rfl, rfl, le_refl _, fun _ => rfl⟩
    · next round heq =>
      split
      · exact ⟨r, mem_createNewRound hr, rfl, rfl, rfl, rfl, le_refl _, fun _ => rfl⟩
      · next hsett =>
        split
        · next hcond =>
          by_cases hidr : r.id = round.id
          · have hrr : r = round := mem_id_unique hid.2 hr (latestRound_mem heq) hidr
            refine ⟨{ round with status := .locked }, ?_, ?_, ?_, ?_, ?_, ?_, ?_⟩
            · have := List.mem_map_of_mem
                (fun x => if x.id = round.id then { round with status := Status.locked }
                  else x) hr
              simpa [hidr] using this
            · show round.id = r.id
              rw [hrr]
            · show round.period = r.period
              rw [hrr]
            · show round.startTime = r.startTime
              rw [hrr]
            · show round.endTime = r.endTime
              rw [hrr]
            · rw [hrr, hcond.2]
              show statusRank Status.open_ ≤ statusRank Status.locked
              decide
            · intro hset
              rw [hrr, hcond.2] at hset
              cases hset
          · refine ⟨r, ?_, rfl, rfl, rfl, rfl, le_refl _, fun _ => rfl⟩
            have := List.mem_map_of_mem
              (fun x => if x.id = round.id then { round with status := Status.locked }
                else x) hr
            simpa [hidr] using this
        · next hcond1 =>
          split
          · next hcond2 =>
            unfold settleRound
            show ∃ r' ∈ createNewRound cal m t (s.map fun x =>
              if x.id = round.id then
                { round with status := .settled, result := some (drawResult e) } else x), _
            by_cases hidr : r.id = round.id
            · have hrr : r = round := mem_id_unique hid.2 hr (latestRound_mem heq) hidr
              refine ⟨{ round with status := .settled, result := some (drawResult e) },
                ?_, ?_, ?_, ?_, ?_, ?_, ?_⟩
              · apply mem_createNewRound
                have := List.mem_map_of_mem
                  (fun x => if x.id = round.id then
                    { round with status := Status.settled, result := some (drawResult e) }
                    else x) hr
                simpa [hidr] using this
              · show round.id = r.id
                rw [hrr]
              · show round.period = r.period
                rw [hrr]
              · show round.startTime = r.startTime
                rw [hrr]
              · show round.endTime = r.endTime
                rw [hrr]
              · exact statusRank_le_two _
              · intro hset
                rw [hrr] at hset
                exact absurd hset hcond2.2
            · refine ⟨r, ?_, rfl, rfl, rfl, rfl, le_refl _, fun _ => rfl⟩
              apply mem_createNewRound
              have := List.mem_map_of_mem
                (fun x => if x.id = round.id then
                  { round with status := Status.settled, result := some (drawResult e) }
                  else x) hr
              simpa [hidr] using this
          · next =>
            exact ⟨r, hr, rfl, rfl, rfl, rfl, le_refl _, fun _ => rfl⟩

theorem runOp_no_skip {cal : Calendar} {m : Mode} {s : List Round} (op : EngineOp)
    (hid : IdOk s) (r : Round) (hr : r ∈ s) (hopen : r.status = .open_) :
    ∀ r' ∈ runOp cal m s op, r'.id = r.id → ¬ r'.status = .settled := by
  intro r' hr' hrid hsett
  cases op with
  | createOp t =>
    rcases createNewRound_cases hr' with h | h
    · have heq : r' = r := mem_id_unique hid.2 h hr hrid
      rw [heq, hopen] at hsett
      cases hsett
    · rw [h] at hsett
      cases hsett
  | tickOp t e =>
    have hr'' : r' ∈ tick cal m t e s := hr'
    unfold tick at hr''
    split at hr''
    · rcases createNewRound_cases hr'' with h | h
      · have heq : r' = r := mem_id_unique hid.2 h hr hrid
        rw [heq, hopen] at hsett
        cases hsett
      · rw [h] at hsett
        cases hsett
    · next round heq =>
      split at hr''
      · rcases createNewRound_cases hr'' with h | h
        · have heq2 : r' = r := mem_id_unique hid.2 h hr hrid
          rw [heq2, hopen] at hsett
          cases hsett
        · rw [h] at hsett
          cases hsett
      · next hsett2 =>
        split at hr''
        · next hcond =>
          rcases List.mem_map.mp hr'' with ⟨x, hx, hfx⟩
          by_cases hxid : x.id = round.id
          · rw [← hfx] at hsett
            simp only [hxid, if_pos] at hsett
            cases hsett
          · rw [← hfx] at hsett hrid
            simp only [if_neg hxid] at hsett hrid
            have heq2 : x = r := mem_id_unique hid.2 hx hr hrid
            rw [heq2, hopen] at hsett
            cases hsett
        · next hcond1 =>
          split at hr''
          · next hcond2 =>
            have hr3 : r' ∈ createNewRound cal m t (s.map fun x =>
                if x.id = round.id then
                  { round with status := .settled, result := some (drawResult e) }
                else x) := hr''
            rcases createNewRound_cases hr3 with h | h
            · rcases List.mem_map.mp h with ⟨x, hx, hfx⟩
              by_cases hxid : x.id = round.id
              · have hido : r.id = round.id := by
                  rw [← hrid, ← hfx]
                  simp [hxid]
                have hrround : r = round :=
                  mem_id_unique hid.2 hr (latestRound_mem heq) hido
                apply hcond1
                refine ⟨by omega, ?_⟩
                rw [← hrround]
                exact hopen
              · rw [← hfx] at hsett hrid
                simp only [if_neg hxid] at hsett hrid
                have heq2 : x = r := mem_id_unique hid.2 hx hr hrid
                rw [heq2, hopen] at hsett
                cases hsett
            · rw [h] at hsett
              cases hsett
          · next =>
            have heq2 : r' = r := mem_id_unique hid.2 hr'' hr hrid
            rw [heq2, hopen] at hsett
            cases hsett

theorem runOps_mono {cal : Calendar} {m : Mode} : ∀ (ops : List EngineOp)
    (s : List Round), IdOk s → ∀ r ∈ s, ∃ r' ∈ runOps cal m ops s,
      r'.id = r.id ∧ r'.period = r.period ∧ r'.startTime = r.startTime
      ∧ r'.endTime = r.endTime ∧ statusRank r.status ≤ statusRank r'.status
      ∧ (r.status = .settled → r' = r) := by
  intro ops
  induction ops with
  | nil =>
    intro s _ r hr
    exact ⟨r, hr, rfl, rfl, rfl, rfl, le_refl _, fun _ => rfl⟩
  | cons op rest ih =>
    intro s hid r hr
    rcases runOp_mono op hid r hr with ⟨r₁, h₁, hi₁, hp₁, hs₁, he₁, hk₁, hset₁⟩
    rcases ih (runOp cal m s op) (IdOk_runOp hid) r₁ h₁ with
      ⟨r', h', hi', hp', hs', he', hk', hset'⟩
    refine ⟨r', h', ?_, ?_, ?_, ?_, le_trans hk₁ hk', ?_⟩
    · rw [hi', hi₁]
    · rw [hp', hp₁]
    · rw [hs', hs₁]
    · rw [he', he₁]
    · intro hset
      have h1r : r₁ = r := hset₁ hset
      have hs2 : r₁.status = .settled := by rw [h1r]; exact hset
      rw [hset' hs2, h1r]

/-- C4: across any sequence of engine operations (startup
`createNewRound` invocations and game-loop ticks, the latter performing
the `settleRound`/`createNewRound` calls of the source), every round of a
well-formed store persists with its identity and slot fields intact and a
status whose rank only advances along `open → locked → settled`; a
settled round is never modified again (status or result); and no single
operation moves an open round directly to `settled` — it must pass
through `locked`. -/
theorem c4_status_monotone (cal : Calendar) (m : Mode) (ops : List EngineOp)
    (s : List Round) (hid : IdOk s) :
    (∀ r ∈ s, ∃ r' ∈ runOps cal m ops s, r'.id = r.id ∧ r'.period = r.period
      ∧ r'.startTime = r.startTime ∧ r'.endTime = r.endTime
      ∧ statusRank r.status ≤ statusRank r'.status
      ∧ (r.status = .settled → r' = r))
    ∧ (∀ (op : EngineOp) (r : Round), r ∈ s → r.status = .open_ →
        ∀ r' ∈ runOp cal m s op, r'.id = r.id → ¬ r'.status = .settled) :=
  ⟨runOps_mono ops s hid, fun op r hr ho => runOp_no_skip op hid r hr ho⟩

/-- Witness for C4: the open demonstration round survives a lock tick and
a settle tick with monotonically advancing status. -/
theorem c4_witness :
    ∃ r' ∈ runOps cal0 .m30s [.tickOp 26000 3, .tickOp 31000 7] [round0],
      r'.id = round0.id ∧ r'.period = round0.period
      ∧ r'.startTime = round0.startTime ∧ r'.endTime = round0.endTime
      ∧ statusRank round0.status ≤ statusRank r'.status
      ∧ (round0.status = .settled → r' = round0) :=
  (c4_status_monotone cal0 .m30s [.tickOp 26000 3, .tickOp 31000 7] [round0]
    ⟨by decide, by decide⟩).1 round0 (by decide)

end ColorTrading
